import Mathlib

/-!
# Verification of the svd2rust generic register-access layer

Shallow embedding of the register-cell machinery from
`src/src/generate/generic.rs` (namespace `Generic`) and of the `imp`
module of `src/pa/src/lib.rs` (namespace `Pa`).

Registers hold a raw unsigned integer of width `w` bits (8/16/32/64 in
the source; the embedding is parametric in `w`).  A `uN` value is
modelled as a `Nat` together with the invariant `< 2 ^ w`; every Rust
operation that can overflow (`<<`) is followed by an explicit
`% 2 ^ w` truncation, and Rust's bitwise complement `!x` is modelled as
`(2 ^ w - 1) ^^^ x`.
-/

namespace Svd2rust

/-- Bitwise complement at register width `w`: Rust `!x` on a `uN`
(`x XOR (2^w - 1)`, the complement within the low `w` bits). -/
def notW (w x : Nat) : Nat := (2 ^ w - 1) ^^^ x

namespace Generic

/-- `W<U, REG>` (generic.rs lines 207-211): the pending-write builder;
its only data is the accumulated raw bits.  `w` is the register width
in bits (the `U` type parameter). -/
structure W (w : Nat) where
  bits : Nat

/-- `R<U, T>` (generic.rs lines 151-154): the snapshot reader; an
immutable copy of raw bits. -/
structure R (w : Nat) where
  bits : Nat

/-- `R::bits` (generic.rs lines 169-172): returns the captured raw
value verbatim. -/
def R.rawBits {w : Nat} (r : R w) : Nat := r.bits

/-- `impl PartialEq<FI> for R` (generic.rs lines 175-184):
`self.bits.eq(&(*other).into())`.  The `Into<U>` conversion of the
typed field value is passed in as its raw result `fiRaw`. -/
def R.eqFI {w : Nat} (r : R w) (fiRaw : Nat) : Bool :=
  r.bits == fiRaw

/-- `R<bool, FI>` (generic.rs lines 186-202): single-bit snapshot. -/
structure Rbool where
  bits : Bool

/-- `R<bool, FI>::bit` (generic.rs lines 188-191). -/
def Rbool.bit (r : Rbool) : Bool := r.bits

/-- `R<bool, FI>::bit_is_clear` (generic.rs lines 193-196). -/
def Rbool.bit_is_clear (r : Rbool) : Bool := !r.bit

/-- `R<bool, FI>::bit_is_set` (generic.rs lines 198-201). -/
def Rbool.bit_is_set (r : Rbool) : Bool := r.bit

/-- `W::bits` (generic.rs lines 213-220): the unchecked whole-register
raw overwrite; replaces the accumulator with `bits` and returns the
builder. -/
def W.bitsRaw {w : Nat} (_b : W w) (bits : Nat) : W w :=
  { bits := bits }

/-- `WProxy::bits`, Safe variant (generic.rs lines 300-306, from
`impl_proxy_safe!`):
`self.w.bits = (self.w.bits & !(FI::MASK << O::OFFSET)) | (((value as $U) & FI::MASK) << O::OFFSET)`.
`value : $N` with field width `N ≤ w`, so `value as $U` is a widening
cast (no truncation); the two shifts are `uN` shifts, truncated at
width `w`. -/
def WProxy.bitsSafe (w mask offset : Nat) (b : W w) (value : Nat) : W w :=
  { bits := (b.bits &&& notW w ((mask <<< offset) % 2 ^ w)) |||
      (((value &&& mask) <<< offset) % 2 ^ w) }

/-- `WProxy::bits`, Unsafe-marker variant (generic.rs lines 329-335,
from `impl_proxy_unsafe!`): same body as the Safe variant, the only
difference in the source being the `unsafe` qualifier on the method. -/
def WProxy.bitsUnchecked (w mask offset : Nat) (b : W w) (value : Nat) : W w :=
  { bits := (b.bits &&& notW w ((mask <<< offset) % 2 ^ w)) |||
      (((value &&& mask) <<< offset) % 2 ^ w) }

/-- `WProxy::bit` for single-bit fields (generic.rs lines 279-282, from
`impl_bit_proxy!`):
`self.w.bits = (self.w.bits & !(0x01 << O::OFFSET)) | (((value as $U) & 0x01) << O::OFFSET)`. -/
def WProxy.bit (w offset : Nat) (b : W w) (value : Bool) : W w :=
  { bits := (b.bits &&& notW w ((1 <<< offset) % 2 ^ w)) |||
      ((((if value then 1 else 0) &&& 1) <<< offset) % 2 ^ w) }

/-- `WProxy::set_bit` (generic.rs lines 269-271): `self.bit(true)`. -/
def WProxy.set_bit (w offset : Nat) (b : W w) : W w :=
  WProxy.bit w offset b true

/-- `WProxy::clear_bit` (generic.rs lines 274-276): `self.bit(false)`. -/
def WProxy.clear_bit (w offset : Nat) (b : W w) : W w :=
  WProxy.bit w offset b false

end Generic

/-- A volatile access on the register cell: the `VolatileCell::get` and
`VolatileCell::set` calls, recorded with the value moved. -/
inductive Event where
  | load (v : Nat)
  | store (v : Nat)
deriving DecidableEq, Repr

namespace Generic

/-- `Reg::read` (generic.rs lines 50-52): one volatile load, wrapped in
a reader.  `s` is the register's current stored bits; the result pairs
the reader with the volatile-access trace. -/
def Reg.read (w : Nat) (s : Nat) : R w × List Event :=
  ({ bits := s }, [Event.load s])

/-- `Reg::reset` (generic.rs lines 64-66): one volatile store of the
reset value.  Result: (new stored bits, volatile-access trace). -/
def Reg.reset (_w : Nat) (rv : Nat) (_s : Nat) : Nat × List Event :=
  (rv, [Event.store rv])

/-- `Reg::write` (generic.rs lines 90-95):
`self.register.set(f(&mut W {bits: Self::reset_value(), ..}).bits)` —
seeds a fresh builder with the reset value, no load, one store of the
builder's final bits. -/
def Reg.write (w : Nat) (rv : Nat) (f : W w → W w) (_s : Nat) :
    Nat × List Event :=
  let final := (f { bits := rv }).bits
  (final, [Event.store final])

/-- `Reg::write_with_zero` (generic.rs lines 107-112):
`self.register.set(f(&mut W {bits: U::default(), ..}).bits)` — the
builder is seeded with `U::default()`, i.e. all bits zero. -/
def Reg.write_with_zero (w : Nat) (f : W w → W w) (_s : Nat) :
    Nat × List Event :=
  let final := (f { bits := 0 }).bits
  (final, [Event.store final])

/-- `Reg::modify` (generic.rs lines 138-144):
`let bits = self.register.get(); self.register.set(f(&R {bits, ..}, &mut W {bits, ..}).bits)`
— one load seeding both the reader and the builder, then one store. -/
def Reg.modify (w : Nat) (f : R w → W w → W w) (s : Nat) :
    Nat × List Event :=
  let final := (f { bits := s } { bits := s }).bits
  (final, [Event.load s, Event.store final])

end Generic

namespace Pa

/-- `imp::W<U, REG>` (pa/src/lib.rs lines 367-371): the pending-write
builder of the inner module of `pa`. -/
structure W (w : Nat) where
  bits : Nat

/-- `imp::R<U, T>` (pa/src/lib.rs lines 311-314): the snapshot reader
of the inner module of `pa`. -/
structure R (w : Nat) where
  bits : Nat

/-- `imp::R::bits` (pa/src/lib.rs lines 329-332). -/
def R.rawBits {w : Nat} (r : R w) : Nat := r.bits

/-- `impl PartialEq<FI> for imp::R` (pa/src/lib.rs lines 335-344):
`self.bits.eq(&(*other).into())`. -/
def R.eqFI {w : Nat} (r : R w) (fiRaw : Nat) : Bool :=
  r.bits == fiRaw

/-- `imp::R<bool, FI>` single-bit snapshot (pa/src/lib.rs lines 346-362). -/
structure Rbool where
  bits : Bool

/-- `imp::R<bool, FI>::bit` (pa/src/lib.rs lines 348-351). -/
def Rbool.bit (r : Rbool) : Bool := r.bits

/-- `imp::R<bool, FI>::bit_is_clear` (pa/src/lib.rs lines 353-356). -/
def Rbool.bit_is_clear (r : Rbool) : Bool := !r.bit

/-- `imp::R<bool, FI>::bit_is_set` (pa/src/lib.rs lines 358-361). -/
def Rbool.bit_is_set (r : Rbool) : Bool := r.bit

/-- `imp::W::bits` (pa/src/lib.rs lines 373-380): whole-register raw
overwrite. -/
def W.bitsRaw {w : Nat} (_b : W w) (bits : Nat) : W w :=
  { bits := bits }

/-- `imp::Reg::read` (pa/src/lib.rs lines 183-188). -/
def Reg.read (w : Nat) (s : Nat) : R w × List Event :=
  ({ bits := s }, [Event.load s])

/-- `imp::Reg::reset` (pa/src/lib.rs lines 200-202). -/
def Reg.reset (_w : Nat) (rv : Nat) (_s : Nat) : Nat × List Event :=
  (rv, [Event.store rv])

/-- `imp::Reg::write` (pa/src/lib.rs lines 226-237). -/
def Reg.write (w : Nat) (rv : Nat) (f : W w → W w) (_s : Nat) :
    Nat × List Event :=
  let final := (f { bits := rv }).bits
  (final, [Event.store final])

/-- `imp::Reg::write_with_zero` (pa/src/lib.rs lines 249-260). -/
def Reg.write_with_zero (w : Nat) (f : W w → W w) (_s : Nat) :
    Nat × List Event :=
  let final := (f { bits := 0 }).bits
  (final, [Event.store final])

/-- `imp::Reg::modify` (pa/src/lib.rs lines 286-304). -/
def Reg.modify (w : Nat) (f : R w → W w → W w) (s : Nat) :
    Nat × List Event :=
  let final := (f { bits := s } { bits := s }).bits
  (final, [Event.load s, Event.store final])

end Pa

namespace Generic

/-- Syntax of the builder transformations a `write`/`write_with_zero`/
`modify` closure can perform: chains of field-proxy writes
(`WProxy::bits`) and raw whole-register overwrites (`W::bits`).  Used
to state which fields a transformation touches. -/
inductive Xform (w : Nat) where
  | idX : Xform w
  | seq : Xform w → Xform w → Xform w
  | fieldBits (mask offset value : Nat) : Xform w
  | rawBits (value : Nat) : Xform w

/-- Run a transformation on a builder: `fieldBits` is a Safe-proxy
`bits` call, `rawBits` is `W::bits`. -/
def Xform.apply {w : Nat} : Xform w → W w → W w
  | Xform.idX, b => b
  | Xform.seq a c, b => c.apply (a.apply b)
  | Xform.fieldBits mask offset value, b => WProxy.bitsSafe w mask offset b value
  | Xform.rawBits value, b => b.bitsRaw value

/-- A transformation avoids the bit span `span` when every field it
writes has a (truncated) field span disjoint from `span` and it
performs no raw overwrite. -/
def Xform.avoids {w : Nat} : Xform w → Nat → Bool
  | Xform.idX, _ => true
  | Xform.seq a c, span => a.avoids span && c.avoids span
  | Xform.fieldBits mask offset _, span =>
      ((mask <<< offset) % 2 ^ w) &&& span == 0
  | Xform.rawBits _, _ => false

/-- Modelled from the spec: the generated per-field reader (`field_bits()`
in the spec's concrete scenario) — generated code absent from src/, which
only contains the generic machinery — extracts a field from captured bits
by shifting right by the field's offset and masking:
`(bits >> offset) & mask`. -/
def fieldReadBits (bits offset mask : Nat) : Nat :=
  (bits >>> offset) &&& mask

/-- Modelled from the spec: the generated single-bit field reader —
generated code absent from src/ — captures the one bit of the register
value at the field's offset as the boolean snapshot `R<bool, FI>`. -/
def bitReadAt (bits offset : Nat) : Rbool :=
  { bits := bits.testBit offset }

end Generic

/-! ## Helper lemmas about the bit-level behaviour of the proxies -/

namespace Generic

lemma W.bits_ext {w : Nat} {a b : W w} (h : a.bits = b.bits) : a = b := by
  cases a
  cases b
  cases h
  rfl

lemma payload_le_span (mask offset v : Nat) :
    (v &&& mask) <<< offset ≤ mask <<< offset := by
  simp only [Nat.shiftLeft_eq]
  exact Nat.mul_le_mul_right _ Nat.and_le_right

lemma testBit_notW_of_lt {w x : Nat} (hx : x < 2 ^ w) (i : Nat) :
    (notW w x).testBit i = (decide (i < w) && !(x.testBit i)) := by
  by_cases hiw : i < w
  · simp [notW, hiw]
  · have hxi : x.testBit i = false :=
      Nat.testBit_lt_two_pow
        (lt_of_lt_of_le hx (Nat.pow_le_pow_right (by norm_num) (le_of_not_lt hiw)))
    simp [notW, hiw, hxi]

lemma bitsSafe_testBit (w mask offset : Nat) (b : W w) (v i : Nat) :
    (WProxy.bitsSafe w mask offset b v).bits.testBit i =
      ((b.bits.testBit i && (decide (i < w) && !((mask <<< offset).testBit i)))
        || (decide (i < w) && ((v &&& mask) <<< offset).testBit i)) := by
  have hsp : (mask <<< offset) % 2 ^ w < 2 ^ w :=
    Nat.mod_lt _ (Nat.pos_pow_of_pos _ (by norm_num))
  simp only [WProxy.bitsSafe, Nat.testBit_or, Nat.testBit_and,
    testBit_notW_of_lt hsp, Nat.testBit_mod_two_pow]
  by_cases hiw : i < w <;> simp [hiw]

lemma bitsSafe_lt (w mask offset : Nat) (b : W w) (v : Nat) :
    (WProxy.bitsSafe w mask offset b v).bits < 2 ^ w := by
  have hpos : 0 < 2 ^ w := Nat.pos_pow_of_pos _ (by norm_num)
  exact Nat.or_lt_two_pow
    (Nat.and_lt_two_pow _
      (Nat.xor_lt_two_pow (Nat.sub_lt hpos (by norm_num)) (Nat.mod_lt _ hpos)))
    (Nat.mod_lt _ hpos)

lemma payload_testBit_imp (mask offset v i : Nat)
    (h : ((v &&& mask) <<< offset).testBit i = true) :
    (mask <<< offset).testBit i = true := by
  simp only [Nat.testBit_shiftLeft, Nat.testBit_and, Bool.and_eq_true,
    decide_eq_true_eq] at h ⊢
  exact ⟨h.1, h.2.2⟩

lemma and_eq_zero_testBit {x y : Nat} (h : x &&& y = 0) (i : Nat) :
    ¬(x.testBit i = true ∧ y.testBit i = true) := by
  rintro ⟨hx, hy⟩
  have h2 : (x &&& y).testBit i = false := by rw [h]; exact Nat.zero_testBit i
  rw [Nat.testBit_and, hx, hy] at h2
  simp at h2

lemma testBit_true_imp_lt {x w i : Nat} (hx : x < 2 ^ w) (h : x.testBit i = true) :
    i < w := by
  have h1 : 2 ^ i ≤ x := Nat.testBit_implies_ge h
  exact (Nat.pow_lt_pow_iff_right (by norm_num)).mp (lt_of_le_of_lt h1 hx)

lemma bit_eq_bitsSafe (w offset : Nat) (b : W w) (flag : Bool) :
    WProxy.bit w offset b flag =
      WProxy.bitsSafe w 1 offset b (if flag then 1 else 0) := rfl

lemma apply_avoids_frame {w : Nat} (span : Nat) (t : Xform w) :
    ∀ b : W w, t.avoids span = true → b.bits < 2 ^ w →
      (t.apply b).bits &&& span = b.bits &&& span ∧ (t.apply b).bits < 2 ^ w := by
  induction t with
  | idX => exact fun b _ hb => ⟨rfl, hb⟩
  | seq a c iha ihc =>
      intro b ht hb
      rw [Xform.avoids, Bool.and_eq_true] at ht
      obtain ⟨e1, l1⟩ := iha b ht.1 hb
      obtain ⟨e2, l2⟩ := ihc (a.apply b) ht.2 l1
      exact ⟨by rw [Xform.apply, e2, e1], l2⟩
  | fieldBits m o v =>
      intro b ht hb
      rw [Xform.avoids, beq_iff_eq] at ht
      refine ⟨?_, bitsSafe_lt w m o b v⟩
      apply Nat.eq_of_testBit_eq
      intro i
      rw [Nat.testBit_and, Nat.testBit_and, Xform.apply, bitsSafe_testBit]
      cases hspv : span.testBit i with
      | false => simp [hspv]
      | true =>
        by_cases hiw : i < w
        · have hmo : (m <<< o).testBit i = false := by
            cases hmo0 : (m <<< o).testBit i with
            | false => rfl
            | true =>
              have hin : ((m <<< o) % 2 ^ w).testBit i = true := by
                rw [Nat.testBit_mod_two_pow, decide_eq_true hiw, hmo0]
                rfl
              exact absurd ⟨hin, hspv⟩ (and_eq_zero_testBit ht i)
          have hp : ((v &&& m) <<< o).testBit i = false := by
            cases hp0 : ((v &&& m) <<< o).testBit i with
            | false => rfl
            | true =>
              rw [payload_testBit_imp m o v i hp0] at hmo
              exact Bool.noConfusion hmo
          simp only [decide_eq_true hiw, hmo, hp]
          simp
        · have hbi : b.bits.testBit i = false :=
            Nat.testBit_lt_two_pow
              (lt_of_lt_of_le hb (Nat.pow_le_pow_right (by norm_num) (le_of_not_lt hiw)))
          simp only [decide_eq_false hiw, hbi]
          simp
  | rawBits v =>
      intro b ht hb
      rw [Xform.avoids] at ht
      exact absurd ht (by simp)

end Generic

/-! ## Claim theorems -/

/-- C1: for every register width `w`, every field-write proxy with mask
`mask` and offset `offset` (the field span lying inside the register, as
it does for every generated field), and every builder holding bits `b`,
both the Safe and the Unsafe-marker variants of `WProxy::bits` replace
the builder's bits with exactly
`(b AND NOT (mask << offset)) OR (((value widened) AND mask) << offset)`
and return that builder. -/
theorem C1_wproxy_bits_formula (w mask offset : Nat) (b : Generic.W w) (v : Nat)
    (hfit : mask <<< offset < 2 ^ w) :
    Generic.WProxy.bitsSafe w mask offset b v =
      { bits := (b.bits &&& notW w (mask <<< offset)) ||| ((v &&& mask) <<< offset) } ∧
    Generic.WProxy.bitsUnchecked w mask offset b v =
      { bits := (b.bits &&& notW w (mask <<< offset)) ||| ((v &&& mask) <<< offset) } := by
  have hm : (mask <<< offset) % 2 ^ w = mask <<< offset := Nat.mod_eq_of_lt hfit
  have hp : ((v &&& mask) <<< offset) % 2 ^ w = (v &&& mask) <<< offset :=
    Nat.mod_eq_of_lt (lt_of_le_of_lt (Generic.payload_le_span mask offset v) hfit)
  constructor <;>
    simp [Generic.WProxy.bitsSafe, Generic.WProxy.bitsUnchecked, hm, hp]

/-- Witness for C1 at width 8, mask `0b11`, offset 3, builder bits 255,
value 2. -/
theorem C1_wproxy_bits_formula_witness :
    Generic.WProxy.bitsSafe 8 3 3 { bits := 255 } 2 =
      { bits := (255 &&& notW 8 (3 <<< 3)) ||| ((2 &&& 3) <<< 3) } ∧
    Generic.WProxy.bitsUnchecked 8 3 3 { bits := 255 } 2 =
      { bits := (255 &&& notW 8 (3 <<< 3)) ||| ((2 &&& 3) <<< 3) } :=
  C1_wproxy_bits_formula 8 3 3 { bits := 255 } 2 (by decide)

/-- C3: `modify` performs exactly one volatile load, seeds both the
snapshot reader and the pending-write builder with the loaded bits `s`,
then performs exactly one volatile store of the builder's final bits;
with an identity transformation it stores exactly the value most
recently read/stored. -/
theorem C3_modify_one_load_one_store (w s : Nat)
    (f : Generic.R w → Generic.W w → Generic.W w) :
    Generic.Reg.modify w f s =
      ((f { bits := s } { bits := s }).bits,
        [Event.load s, Event.store (f { bits := s } { bits := s }).bits]) ∧
    Generic.Reg.modify w (fun _ b => b) s = (s, [Event.load s, Event.store s]) :=
  ⟨rfl, rfl⟩

/-- C4: `write` seeds a fresh builder with the reset pattern `rv`,
performs zero loads and exactly one store of the builder's final bits;
a transformation `t` that avoids the bit span `span` leaves the bits of
that span at the reset pattern's bits (independent of the register's
prior contents `s`), and an identity transformation stores exactly
`rv`. -/
theorem C4_write_seeds_reset (w rv s span : Nat)
    (f : Generic.W w → Generic.W w) (t : Generic.Xform w)
    (ht : t.avoids span = true) (hrv : rv < 2 ^ w) :
    Generic.Reg.write w rv f s =
      ((f { bits := rv }).bits, [Event.store (f { bits := rv }).bits]) ∧
    (Generic.Reg.write w rv t.apply s).1 &&& span = rv &&& span ∧
    Generic.Reg.write w rv (fun b => b) s = (rv, [Event.store rv]) :=
  ⟨rfl, (Generic.apply_avoids_frame span t { bits := rv } ht hrv).1, rfl⟩

/-- Witness for C4 at width 8, reset pattern 85, prior contents 0, span
`0b11000`, and a transformation writing 2 to a field of mask `0b11` at
offset 0. -/
theorem C4_write_seeds_reset_witness :
    Generic.Reg.write 8 85 (fun b => Generic.WProxy.bitsSafe 8 3 0 b 2) 0 =
      ((Generic.WProxy.bitsSafe 8 3 0 { bits := 85 } 2).bits,
        [Event.store (Generic.WProxy.bitsSafe 8 3 0 { bits := 85 } 2).bits]) ∧
    (Generic.Reg.write 8 85
        (Generic.Xform.fieldBits (w := 8) 3 0 2).apply 0).1 &&& 24 = 85 &&& 24 ∧
    Generic.Reg.write 8 85 (fun b => b) 0 = (85, [Event.store 85]) :=
  C4_write_seeds_reset 8 85 0 24 (fun b => Generic.WProxy.bitsSafe 8 3 0 b 2)
    (Generic.Xform.fieldBits 3 0 2) (by decide) (by decide)

/-- C5: `write_with_zero` seeds a fresh builder with all bits zero (no
reset pattern and no load), performs exactly one store of the builder's
final bits, and every bit span avoided by the transformation equals 0
in the stored result. -/
theorem C5_write_with_zero_seeds_zero (w s span : Nat)
    (f : Generic.W w → Generic.W w) (t : Generic.Xform w)
    (ht : t.avoids span = true) :
    Generic.Reg.write_with_zero w f s =
      ((f { bits := 0 }).bits, [Event.store (f { bits := 0 }).bits]) ∧
    (Generic.Reg.write_with_zero w t.apply s).1 &&& span = 0 := by
  refine ⟨rfl, ?_⟩
  have h := (Generic.apply_avoids_frame span t { bits := 0 } ht
    (Nat.pos_pow_of_pos _ (by norm_num))).1
  simpa using h

/-- Witness for C5 at width 8, prior contents 99, span `0b11000`, and a
transformation writing 2 to a field of mask `0b11` at offset 0. -/
theorem C5_write_with_zero_seeds_zero_witness :
    Generic.Reg.write_with_zero 8 (fun b => Generic.WProxy.bitsSafe 8 3 0 b 2) 99 =
      ((Generic.WProxy.bitsSafe 8 3 0 { bits := 0 } 2).bits,
        [Event.store (Generic.WProxy.bitsSafe 8 3 0 { bits := 0 } 2).bits]) ∧
    (Generic.Reg.write_with_zero 8
        (Generic.Xform.fieldBits (w := 8) 3 0 2).apply 99).1 &&& 24 = 0 :=
  C5_write_with_zero_seeds_zero 8 99 24
    (fun b => Generic.WProxy.bitsSafe 8 3 0 b 2)
    (Generic.Xform.fieldBits 3 0 2) (by decide)

/-- C6: concrete scenario — 8-bit register with reset pattern 0, one
2-bit field at offset 3 with mask `0b11`: `write` with a proxy
`bits(0b10)` call stores exactly `0b00010000`; a subsequent `modify`
writing the extracted field value plus 1 back through the proxy stores
exactly `0b00011000`; in both stored values all bits outside the field
span are 0. -/
theorem C6_concrete_scenario :
    (Generic.Reg.write 8 0 (fun b => Generic.WProxy.bitsSafe 8 3 3 b 2) 0).1 = 16 ∧
    (Generic.Reg.modify 8
        (fun r b =>
          Generic.WProxy.bitsSafe 8 3 3 b (Generic.fieldReadBits r.bits 3 3 + 1))
        16).1 = 24 ∧
    16 &&& notW 8 (3 <<< 3) = 0 ∧ 24 &&& notW 8 (3 <<< 3) = 0 := by
  decide

/-- C8: the snapshot reader's equality test against a typed field value
holds iff the captured bits equal the candidate's raw representation
exactly — no mask and no shift is applied to either side. -/
theorem C8_reader_eq_unmasked (w b fiRaw : Nat) :
    Generic.R.eqFI (w := w) { bits := b } fiRaw = true ↔ b = fiRaw := by
  simp [Generic.R.eqFI]

/-- C9: the module of generic.rs and the inner `imp` module of
pa/src/lib.rs are behaviourally equivalent: read, reset, write,
write_with_zero, modify, the raw whole-register `W::bits` overwrite,
and the reader operations compute the same stored values, traces and
results for every width, seed and transformation. -/
theorem C9_variants_equivalent (w rv s braw vraw fiRaw : Nat) (bb : Bool)
    (g : Nat → Nat) (g2 : Nat → Nat → Nat) :
    ((Generic.Reg.read w s).1.bits = (Pa.Reg.read w s).1.bits ∧
      (Generic.Reg.read w s).2 = (Pa.Reg.read w s).2) ∧
    Generic.Reg.reset w rv s = Pa.Reg.reset w rv s ∧
    Generic.Reg.write w rv (fun b => { bits := g b.bits }) s =
      Pa.Reg.write w rv (fun b => { bits := g b.bits }) s ∧
    Generic.Reg.write_with_zero w (fun b => { bits := g b.bits }) s =
      Pa.Reg.write_with_zero w (fun b => { bits := g b.bits }) s ∧
    Generic.Reg.modify w (fun r b => { bits := g2 r.bits b.bits }) s =
      Pa.Reg.modify w (fun r b => { bits := g2 r.bits b.bits }) s ∧
    (Generic.W.bitsRaw (w := w) { bits := braw } vraw).bits =
      (Pa.W.bitsRaw (w := w) { bits := braw } vraw).bits ∧
    Generic.R.rawBits (w := w) { bits := braw } =
      Pa.R.rawBits (w := w) { bits := braw } ∧
    Generic.R.eqFI (w := w) { bits := braw } fiRaw =
      Pa.R.eqFI (w := w) { bits := braw } fiRaw ∧
    Generic.Rbool.bit { bits := bb } = Pa.Rbool.bit { bits := bb } ∧
    Generic.Rbool.bit_is_set { bits := bb } = Pa.Rbool.bit_is_set { bits := bb } ∧
    Generic.Rbool.bit_is_clear { bits := bb } = Pa.Rbool.bit_is_clear { bits := bb } :=
  ⟨⟨rfl, rfl⟩, rfl, rfl, rfl, rfl, rfl, rfl, rfl, rfl, rfl, rfl⟩

/-- C2: field isolation — for a field with offset `o` and mask `m`
(span inside the register) and a builder seeded with bits `s`, after a
proxy `bits(v)` call, extracting the field (shift right by `o`, mask
with `m`) yields exactly `v &&& m`, and every bit of the builder outside
the span `m <<< o` equals the corresponding bit of the seed `s`. -/
theorem C2_field_isolation (w m o s v i : Nat)
    (hfit : m <<< o < 2 ^ w) (hs : s < 2 ^ w) :
    Generic.fieldReadBits (Generic.WProxy.bitsSafe w m o { bits := s } v).bits o m =
      v &&& m ∧
    ((m <<< o).testBit i = false →
      (Generic.WProxy.bitsSafe w m o { bits := s } v).bits.testBit i = s.testBit i) := by
  constructor
  · apply Nat.eq_of_testBit_eq
    intro j
    rw [Generic.fieldReadBits, Nat.testBit_and, Nat.testBit_and,
      Nat.testBit_shiftRight, Generic.bitsSafe_testBit]
    cases hmj : m.testBit j with
    | false => simp [hmj]
    | true =>
      have hsp : (m <<< o).testBit (o + j) = true := by
        rw [Nat.testBit_shiftLeft, Nat.add_sub_cancel_left, hmj,
          decide_eq_true (Nat.le_add_right o j)]
        rfl
      have hlt : o + j < w := Generic.testBit_true_imp_lt hfit hsp
      have hpay : ((v &&& m) <<< o).testBit (o + j) = (v.testBit j && m.testBit j) := by
        rw [Nat.testBit_shiftLeft, Nat.add_sub_cancel_left, Nat.testBit_and,
          decide_eq_true (Nat.le_add_right o j)]
        rfl
      rw [hsp, hpay, decide_eq_true hlt, hmj]
      simp
  · intro hout
    rw [Generic.bitsSafe_testBit]
    have hpay : ((v &&& m) <<< o).testBit i = false := by
      cases hp0 : ((v &&& m) <<< o).testBit i with
      | false => rfl
      | true =>
        rw [Generic.payload_testBit_imp m o v i hp0] at hout
        exact Bool.noConfusion hout
    by_cases hiw : i < w
    · simp [decide_eq_true hiw, hout, hpay]
    · have hsi : s.testBit i = false :=
        Nat.testBit_lt_two_pow
          (lt_of_lt_of_le hs (Nat.pow_le_pow_right (by norm_num) (le_of_not_lt hiw)))
      simp [decide_eq_false hiw, hsi, hpay]

/-- Witness for C2 at width 8, mask `0b11`, offset 3, seed 255, value 2,
checking the untouched bit at index 0. -/
theorem C2_field_isolation_witness :
    Generic.fieldReadBits (Generic.WProxy.bitsSafe 8 3 3 { bits := 255 } 2).bits 3 3 =
      2 &&& 3 ∧
    (Generic.WProxy.bitsSafe 8 3 3 { bits := 255 } 2).bits.testBit 0 =
      (255 : Nat).testBit 0 :=
  ⟨(C2_field_isolation 8 3 3 255 2 0 (by decide) (by decide)).1,
    (C2_field_isolation 8 3 3 255 2 0 (by decide) (by decide)).2 (by decide)⟩

/-- C7: single-bit semantics — `set_bit()` is `bit(true)` and
`clear_bit()` is `bit(false)`; `bit(flag)` sets the one builder bit at
`offset` to `flag` and leaves every other bit unchanged; the boolean
snapshot of the resulting bit satisfies `bit_is_set()` after
`set_bit()` and `bit_is_clear()` after `clear_bit()`; and `bit_is_set`
and `bit_is_clear` are logical complements on every snapshot. -/
theorem C7_single_bit_semantics (w offset i : Nat) (b : Generic.W w)
    (flag bb : Bool) (ho : offset < w) (hb : b.bits < 2 ^ w) (hi : i ≠ offset) :
    Generic.WProxy.set_bit w offset b = Generic.WProxy.bit w offset b true ∧
    Generic.WProxy.clear_bit w offset b = Generic.WProxy.bit w offset b false ∧
    (Generic.WProxy.bit w offset b flag).bits.testBit offset = flag ∧
    (Generic.WProxy.bit w offset b flag).bits.testBit i = b.bits.testBit i ∧
    (Generic.bitReadAt (Generic.WProxy.set_bit w offset b).bits offset).bit_is_set
      = true ∧
    (Generic.bitReadAt (Generic.WProxy.clear_bit w offset b).bits offset).bit_is_clear
      = true ∧
    Generic.Rbool.bit_is_set { bits := bb } = !Generic.Rbool.bit_is_clear { bits := bb } := by
  have hat : ∀ fl : Bool, (Generic.WProxy.bit w offset b fl).bits.testBit offset = fl := by
    intro fl
    rw [Generic.bit_eq_bitsSafe, Generic.bitsSafe_testBit]
    have hsp : (1 <<< offset).testBit offset = true := by
      rw [Nat.testBit_shiftLeft, Nat.sub_self, decide_eq_true (Nat.le_refl offset)]
      rfl
    have hpay : (((if fl then 1 else 0) &&& 1) <<< offset).testBit offset = fl := by
      rw [Nat.testBit_shiftLeft, Nat.sub_self, decide_eq_true (Nat.le_refl offset)]
      cases fl <;> rfl
    rw [hsp, hpay, decide_eq_true ho]
    cases fl <;> simp
  have hother : (Generic.WProxy.bit w offset b flag).bits.testBit i = b.bits.testBit i := by
    rw [Generic.bit_eq_bitsSafe, Generic.bitsSafe_testBit]
    have hsp : (1 <<< offset).testBit i = false := by
      rw [Nat.testBit_shiftLeft]
      by_cases hoi : offset ≤ i
      · have h1 : Nat.testBit 1 (i - offset) = false := by
          rw [show (1 : Nat) = 2 ^ 0 by rfl, Nat.testBit_two_pow]
          simp
          omega
        simp [h1]
      · simp [hoi]
    have hpay : (((if flag then 1 else 0) &&& 1) <<< offset).testBit i = false := by
      cases hp0 : (((if flag then 1 else 0) &&& 1) <<< offset).testBit i with
      | false => rfl
      | true =>
        rw [Generic.payload_testBit_imp 1 offset (if flag then 1 else 0) i hp0] at hsp
        exact Bool.noConfusion hsp
    by_cases hiw : i < w
    · rw [hsp, hpay, decide_eq_true hiw]
      simp
    · have hbi : b.bits.testBit i = false :=
        Nat.testBit_lt_two_pow
          (lt_of_lt_of_le hb (Nat.pow_le_pow_right (by norm_num) (le_of_not_lt hiw)))
      rw [hpay, decide_eq_false hiw, hbi]
      simp
  refine ⟨rfl, rfl, hat flag, hother, ?_, ?_, ?_⟩
  · show Generic.Rbool.bit_is_set
      { bits := (Generic.WProxy.bit w offset b true).bits.testBit offset } = true
    rw [hat true]
    rfl
  · show Generic.Rbool.bit_is_clear
      { bits := (Generic.WProxy.bit w offset b false).bits.testBit offset } = true
    rw [hat false]
    rfl
  · cases bb <;> rfl

/-- Witness for C7 at width 8, offset 3, builder bits 170, flag true,
snapshot bit false, untouched index 0. -/
theorem C7_single_bit_semantics_witness :
    Generic.WProxy.set_bit 8 3 { bits := 170 } =
      Generic.WProxy.bit 8 3 { bits := 170 } true ∧
    Generic.WProxy.clear_bit 8 3 { bits := 170 } =
      Generic.WProxy.bit 8 3 { bits := 170 } false ∧
    (Generic.WProxy.bit 8 3 { bits := 170 } true).bits.testBit 3 = true ∧
    (Generic.WProxy.bit 8 3 { bits := 170 } true).bits.testBit 0 =
      (170 : Nat).testBit 0 ∧
    (Generic.bitReadAt (Generic.WProxy.set_bit 8 3 { bits := 170 }).bits 3).bit_is_set
      = true ∧
    (Generic.bitReadAt (Generic.WProxy.clear_bit 8 3 { bits := 170 }).bits 3).bit_is_clear
      = true ∧
    Generic.Rbool.bit_is_set { bits := false } =
      !Generic.Rbool.bit_is_clear { bits := false } :=
  C7_single_bit_semantics 8 3 0 { bits := 170 } true false (by decide) (by decide)
    (by decide)

/-- C10: disjoint-field commutativity — for any builder and any two
fields whose bit spans are disjoint, applying the first proxy's
`bits(v1)` then the second's `bits(v2)` yields the same builder bits as
the opposite order. -/
theorem C10_disjoint_fields_commute (w m1 o1 m2 o2 v1 v2 : Nat) (b : Generic.W w)
    (hdisj : (m1 <<< o1) &&& (m2 <<< o2) = 0) :
    Generic.WProxy.bitsSafe w m2 o2 (Generic.WProxy.bitsSafe w m1 o1 b v1) v2 =
      Generic.WProxy.bitsSafe w m1 o1 (Generic.WProxy.bitsSafe w m2 o2 b v2) v1 := by
  apply Generic.W.bits_ext
  apply Nat.eq_of_testBit_eq
  intro i
  have hd := Generic.and_eq_zero_testBit hdisj i
  have hp1 := Generic.payload_testBit_imp m1 o1 v1 i
  have hp2 := Generic.payload_testBit_imp m2 o2 v2 i
  simp only [Generic.bitsSafe_testBit]
  cases h1 : (m1 <<< o1).testBit i <;> cases h2 : (m2 <<< o2).testBit i <;>
    cases q1 : ((v1 &&& m1) <<< o1).testBit i <;>
    cases q2 : ((v2 &&& m2) <<< o2).testBit i <;>
    cases hA : decide (i < w) <;> cases hB : b.bits.testBit i <;>
    simp_all

/-- Witness for C10 at width 8: fields (mask `0b11`, offset 3) and
(mask `0b111`, offset 0) with disjoint spans, builder bits 255. -/
theorem C10_disjoint_fields_commute_witness :
    Generic.WProxy.bitsSafe 8 7 0 (Generic.WProxy.bitsSafe 8 3 3 { bits := 255 } 2) 5 =
      Generic.WProxy.bitsSafe 8 3 3 (Generic.WProxy.bitsSafe 8 7 0 { bits := 255 } 5) 2 :=
  C10_disjoint_fields_commute 8 3 3 7 0 2 5 { bits := 255 } (by decide)

end Svd2rust
